import Mathlib

set_option linter.unusedVariables false

/-!
Verification of the Edge-Machine probability pipeline.

Shallow embedding of `pm/ensemble.py` and `pm/api.py`.  Python floats are
modelled as rationals (`ℚ`); SQLite rows as Lean structures; fallible
network calls as `Option`-valued oracles passed in as parameters.
-/

namespace EdgeMachine

/-- `ensemble._clamp(x, lo, hi)` on a numeric argument:
`max(lo, min(hi, x))` (the `except` branch only fires on non-numeric
input, which we model separately where it matters). -/
def pyclamp (x lo hi : ℚ) : ℚ := max lo (min hi x)

/-- `Params.vol_anchor_usd` -/
def vol_anchor_usd : ℚ := 500000

/-- The local `p_pm = _clamp(crowd_p, 0.001, 0.999)` of `compute_machine_p`. -/
def pPm (crowd_p : ℚ) : ℚ := pyclamp crowd_p (1/1000) (999/1000)

/-- The blend step of `compute_machine_p`:
`vol = max(float(volume24hr or 0.0), 0.0)` (identity on numbers, then
floored at 0), `wv = min(vol / P.vol_anchor_usd, 1.0)`,
`p = wv * p_pm + (1.0 - wv) * 0.5`. -/
def blendP (crowd_p volume24hr : ℚ) : ℚ :=
  let wv := min (max volume24hr 0 / vol_anchor_usd) 1
  wv * pPm crowd_p + (1 - wv) * (1/2)

/-- The overconfidence crusher of `compute_machine_p`:
`if p_pm >= 0.94: p = min(p, 0.91) elif p_pm <= 0.06: p = max(p, 0.09)`. -/
def crushP (crowd_p volume24hr : ℚ) : ℚ :=
  if pPm crowd_p ≥ 94/100 then min (blendP crowd_p volume24hr) (91/100)
  else if pPm crowd_p ≤ 6/100 then max (blendP crowd_p volume24hr) (9/100)
  else blendP crowd_p volume24hr

/-- The extra-regression step of `compute_machine_p`:
`if abs(p_pm - 0.5) > 0.40: p = p + 0.20 * (0.5 - p)`. -/
def regressP (crowd_p volume24hr : ℚ) : ℚ :=
  if |pPm crowd_p - 1/2| > 40/100 then
    crushP crowd_p volume24hr + (20/100) * (1/2 - crushP crowd_p volume24hr)
  else crushP crowd_p volume24hr

/-- `ensemble.compute_machine_p` from `pm/ensemble.py`, on numeric inputs,
assembled from its four steps above.  The `title` argument is unused,
exactly as in the source. -/
def compute_machine_p (crowd_p : ℚ) (volume24hr : ℚ) (title : String) : ℚ :=
  pyclamp (regressP crowd_p volume24hr) (1/100) (99/100)

/-- The five-step reference definition from the specification, written
from the spec's words (conditions on the ORIGINAL `crowd_p`), to be
compared against `compute_machine_p`. -/
def adjustRef (crowd_p : ℚ) (volume24hr : ℚ) : ℚ :=
  let cp := max (1/1000) (min (999/1000) crowd_p)
  let vv := max volume24hr 0
  let w := min (vv / 500000) 1
  let p0 := w * cp + (1 - w) * (1/2)
  let p1 := if crowd_p ≥ 94/100 then min p0 (91/100) else p0
  let p2 := if crowd_p ≤ 6/100 then max p1 (9/100) else p1
  let p3 := if |crowd_p - 1/2| > 40/100 then p2 + (20/100) * (1/2 - p2) else p2
  max (1/100) (min (99/100) p3)

/-- `api.clamp01` on a numeric argument. -/
def clamp01 (x : ℚ) : ℚ := if x < 0 then 0 else if x > 1 then 1 else x

/-- `api.machine_from_pm`: the "minimal machine" actually used by the
`update_prices` forecast loop. -/
def machine_from_pm (p_pm : ℚ) : ℚ :=
  let p := (90/100) * p_pm + (10/100) * (1/2)
  let p := if p_pm ≥ 94/100 then min p (995/1000) else p
  let p := if p_pm ≤ 6/100 then max p (5/1000) else p
  clamp01 p

/-! ### Token resolver (`api.extract_yes_token_id`) -/

/-- One entry of a market's `tokens`/`outcomes` list when the entries are
dicts.  Fields are the aliases the source reads; absent keys are `none`. -/
structure TokDict where
  outcome : Option String
  label : Option String
  name : Option String
  token_id : Option String
  tokenId : Option String
  tokenID : Option String
  id : Option String
  clobTokenId : Option String
deriving DecidableEq

/-- A `tokens`/`outcomes` payload: the source branches on
`isinstance(x[0], dict)` vs `isinstance(x[0], str)`, so we model the two
homogeneous shapes it handles (a heterogeneous list would raise mid-loop
in Python and is out of scope). -/
inductive TokList where
  | dicts (l : List TokDict)
  | strs (l : List String)
deriving DecidableEq

/-- A market listing/detail document, restricted to the keys
`extract_yes_token_id` reads. -/
structure MarketDoc where
  yesTokenId : Option String
  yes_token_id : Option String
  yes_token : Option String
  yesToken : Option String
  tokens : Option TokList
  outcomes : Option TokList
  clobTokenIds : Option (List String)
  clob_token_ids : Option (List String)
deriving DecidableEq

/-- Python truthiness of an optional string: `None` and `""` are falsy. -/
def strTruthy (o : Option String) : Bool :=
  match o with
  | some s => s != ""
  | none => false

/-- First truthy value of a chain `m.get(k1) or m.get(k2) or ...`. -/
def firstTruthyStr (l : List (Option String)) : Option String :=
  match l with
  | [] => none
  | o :: rest => if strTruthy o then o else firstTruthyStr rest

/-- Python truthiness of an optional list payload (`None`, `[]` falsy). -/
def tokTruthy (o : Option TokList) : Bool :=
  match o with
  | some (.dicts []) => false
  | some (.strs []) => false
  | some _ => true
  | none => false

/-- `a or b` on `tokens`/`outcomes` payloads. -/
def pyOrTok (a b : Option TokList) : Option TokList :=
  if tokTruthy a then a else b

/-- `a or b` on `clobTokenIds`/`clob_token_ids` payloads. -/
def pyOrIds (a b : Option (List String)) : Option (List String) :=
  match a with
  | some (_ :: _) => a
  | _ => b

/-- Python whitespace for `str.strip()`: space, tab, newline, carriage
return, vertical tab, form feed. -/
def isPyWS (c : Char) : Bool :=
  c == ' ' || c == '\t' || c == '\n' || c == '\r' ||
    c.toNat == 11 || c.toNat == 12

/-- Python `s.strip().lower()`, written with structural recursion so it
evaluates on literals. -/
def pyStripLower (s : String) : String :=
  String.mk ((((s.data.dropWhile isPyWS).reverse.dropWhile isPyWS).reverse).map
    Char.toLower)

/-- `(t.get("outcome") or t.get("label") or t.get("name") or "").strip().lower()` -/
def labelOf (t : TokDict) : String :=
  pyStripLower ((firstTruthyStr [t.outcome, t.label, t.name]).getD "")

/-- Whether a label is `"yes"` or `"true"` after normalisation. -/
def labelIsYes (t : TokDict) : Bool :=
  labelOf t == "yes" || labelOf t == "true"

/-- The inner alias loop: first truthy id among
`token_id, tokenId, tokenID, id, clobTokenId`. -/
def idOf (t : TokDict) : Option String :=
  firstTruthyStr [t.token_id, t.tokenId, t.tokenID, t.id, t.clobTokenId]

/-- `api.extract_yes_token_id`: YES-token extraction over the schema
variants.  Mirrors the source's three branches; there is deliberately no
positional `clobTokenIds[0]` fallback (the source docstring: "Never
assumes clobTokenIds[0] == YES"). -/
def extract_yes_token_id (m : MarketDoc) : Option String :=
  match firstTruthyStr [m.yesTokenId, m.yes_token_id, m.yes_token, m.yesToken] with
  | some s => some s
  | none =>
    let toks := pyOrTok m.tokens m.outcomes
    let cids := pyOrIds m.clobTokenIds m.clob_token_ids
    match toks with
    | some (.dicts (t0 :: rest)) =>
      let ts := t0 :: rest
      -- first pass: explicit label YES/TRUE with an id alias on the entry
      match (ts.filterMap (fun t => if labelIsYes t then idOf t else none)).head? with
      | some s => some s
      | none =>
        -- second pass: labels aligned by index with `clobTokenIds`
        match cids with
        | some ids =>
          if ids.length = ts.length then
            ((ts.zip ids).filterMap
              (fun p => if labelIsYes p.1 then some p.2 else none)).head?
          else none
        | none => none
    | some (.strs (s0 :: rest)) =>
      let names := s0 :: rest
      match cids with
      | some ids =>
        if ids.length = names.length then
          ((names.zip ids).filterMap
            (fun p => if (pyStripLower p.1 == "yes" || pyStripLower p.1 == "true")
                      then some p.2 else none)).head?
        else none
      | none => none
    | _ => none

/-! ### The events table and `upsert_event_in_conn` -/

/-- One row of the `events` table from `pm/api.py`. -/
structure Row where
  id : String
  title : String
  created_at : String
  slug : Option String
  gamma_market_id : Option String
  yes_token_id : Option String
  latest_pm_p : Option ℚ
  latest_machine_p : Option ℚ
deriving DecidableEq

/-- `SELECT ... WHERE slug = ?` when the slug is truthy (SQL `=` against
a NULL column never matches, and `fetchone` takes the first row). -/
def findBySlug (slug : Option String) (tbl : List Row) : Option Row :=
  match slug with
  | some s => if s != "" then tbl.find? (fun r => r.slug == some s) else none
  | none => none

/-- `SELECT ... WHERE gamma_market_id = ?` when the market id is truthy. -/
def findByGid (gid : Option String) (tbl : List Row) : Option Row :=
  match gid with
  | some g => if g != "" then tbl.find? (fun r => r.gamma_market_id == some g) else none
  | none => none

/-- The row-lookup of `upsert_event_in_conn`: by slug first, then by
market id. -/
def findRow (slug gid : Option String) (tbl : List Row) : Option Row :=
  match findBySlug slug tbl with
  | some r => some r
  | none => findByGid gid tbl

/-- `UPDATE events SET ... WHERE id = ?` applied to every row with that
id (the primary key makes it unique in practice). -/
def updateWhereId (i : String) (f : Row → Row) (tbl : List Row) : List Row :=
  tbl.map (fun r => if r.id == i then f r else r)

/-- `api.upsert_event_in_conn`.  `newId`/`newCreated` stand for the
`uuid4()` / `now_utc().isoformat()` values used on insert. -/
def upsert_event_in_conn (title : String) (slug gid yes_tid : Option String)
    (newId newCreated : String) (tbl : List Row) : List Row :=
  match findRow slug gid tbl with
  | some row =>
    if strTruthy yes_tid then
      updateWhereId row.id
        (fun r => { r with title := title, slug := slug,
                           gamma_market_id := gid, yes_token_id := yes_tid }) tbl
    else
      updateWhereId row.id
        (fun r => { r with title := title, slug := slug,
                           gamma_market_id := gid }) tbl
  | none => tbl ++ [⟨newId, title, newCreated, slug, gid, yes_tid, none, none⟩]

/-! ### Discovery (`admin_run_job`, `discover_markets` branch) -/

/-- A filtered discovery candidate as it reaches the upsert loop: the
title survived the non-empty check, and `gid` is `str(m.get("id") or
...)` (the loop `continue`s when it is falsy). -/
structure Market where
  title : String
  slug : Option String
  gid : String
deriving DecidableEq

/-- The upsert loop of the `discover_markets` job over the ranked
candidate list.  `tok` abstracts `extract_yes_token_id` on the listing
payload plus the detail-call retry; `ids` supplies the fresh
`uuid4()` ids, indexed by an insertion counter. -/
def discover_markets (tok : Market → Option String) (ids : Nat → String) :
    List Market → List Row → Nat → List Row × Nat
  | [], tbl, c => (tbl, c)
  | m :: ms, tbl, c =>
    if m.gid == "" then discover_markets tok ids ms tbl c
    else
      discover_markets tok ids ms
        (upsert_event_in_conn m.title m.slug (some m.gid) (tok m) (ids c) "" tbl) (c + 1)

/-! ### Hydration (`admin_run_job`, `hydrate_tokens` branch) -/

/-- The `hydrate_tokens` loop: rows selected by
`WHERE (yes_token_id IS NULL OR yes_token_id = '') AND gamma_market_id IS
NOT NULL` (the `sel` parameter abstracts the `ORDER BY`/`LIMIT`/time
budget); a row is updated only when the detail fetch succeeds and the
resolver returns a truthy token. -/
def hydrateRow (detail : String → Option MarketDoc) (sel : String → Bool)
    (r : Row) : Row :=
  if sel r.id && (r.yes_token_id == none || r.yes_token_id == some "") then
    match r.gamma_market_id with
    | some g =>
      match detail g with
      | none => r
      | some d =>
        match extract_yes_token_id d with
        | none => r
        | some tid => if tid != "" then { r with yes_token_id := some tid } else r
    | none => r
  else r

/-- The `hydrate_tokens` job as a whole. -/
def hydrate_tokens (detail : String → Option MarketDoc) (sel : String → Bool)
    (tbl : List Row) : List Row :=
  tbl.map (hydrateRow detail sel)

/-! ### CLOB price fetch (`api.clob_midpoint`) and the price snapshot -/

/-- A JSON value in a quote response, abstracted by how `float(·)` treats
it: a number, a non-empty numeric string (parses), or a non-numeric
string (raises). -/
inductive JVal where
  | jnum (q : ℚ)
  | jnumstr (q : ℚ)
  | jstr (s : String)
deriving DecidableEq

/-- Python truthiness of an optional JSON value. -/
def jTruthy (o : Option JVal) : Bool :=
  match o with
  | none => false
  | some (.jnum q) => q != 0
  | some (.jnumstr _) => true
  | some (.jstr s) => s != ""

/-- `float(·)`: numbers and numeric strings parse, other strings raise. -/
def parseFloat (v : JVal) : Option ℚ :=
  match v with
  | .jnum q => some q
  | .jnumstr q => some q
  | .jstr _ => none

/-- `a or b` on JSON values. -/
def pyOrJ (a b : Option JVal) : Option JVal :=
  if jTruthy a then a else b

/-- The nested `{"data": {"midpoint"|"price": ...}}` envelope. -/
structure ClobInner where
  midpoint : Option JVal
  price : Option JVal
deriving DecidableEq

/-- A quote-service response body. -/
structure ClobResp where
  midpoint : Option JVal
  price : Option JVal
  data : Option ClobInner
deriving DecidableEq

/-- `mp = data.get("midpoint") or data.get("price")`, falling back to the
nested `data` dict when `mp is None`. -/
def mpOf (d : ClobResp) : Option JVal :=
  match pyOrJ d.midpoint d.price with
  | some v => some v
  | none =>
    match d.data with
    | some inner => pyOrJ inner.midpoint inner.price
    | none => none

/-- Outcome of one `requests.get` to a quote endpoint. -/
inductive FetchResult where
  | fail
  | ok (resp : ClobResp)
deriving DecidableEq

/-- Outcome of one attempt inside `clob_midpoint`: an early `return None`
(missing `mp`), a returned float, or an exception (HTTP failure or
`float(mp)` raising) that falls through to the retry loop. -/
inductive AttemptOut where
  | retNone
  | retVal (q : ℚ)
  | exc
deriving DecidableEq

/-- One attempt of `clob_midpoint` against one endpoint. -/
def attemptMidpoint (fr : FetchResult) : AttemptOut :=
  match fr with
  | .fail => .exc
  | .ok resp =>
    match mpOf resp with
    | none => .retNone
    | some v =>
      match parseFloat v with
      | some q => .retVal q
      | none => .exc

/-- `api.clob_midpoint` with deterministic endpoint responses: the
`/midpoint` endpoint is tried (3 identical attempts collapse to one),
then `/price`; an attempt that raises falls through, and exhausting both
endpoints yields `None`. -/
def clob_midpoint (ep1 ep2 : FetchResult) : Option ℚ :=
  match attemptMidpoint ep1 with
  | .retNone => none
  | .retVal q => some q
  | .exc =>
    match attemptMidpoint ep2 with
    | .retNone => none
    | .retVal q => some q
    | .exc => none

/-- Full `api.clamp01` on a loose input: unparseable values clamp to the
neutral prior 0.5. -/
def clamp01Val (x : Option JVal) : ℚ :=
  match x with
  | none => 1/2
  | some v =>
    match parseFloat v with
    | none => 1/2
    | some q => clamp01 q

/-- The body of the snapshot loop of `update_prices` for one row: a
selected row with a truthy `yes_token_id` gets its price fetched; the
row is skipped when the fetch yields nothing, else `clamp01` of the
price is written to `latest_pm_p`. -/
def snapRow (price : String → Option ℚ) (sel : String → Bool) (r : Row) : Row :=
  if sel r.id then
    match r.yes_token_id with
    | some tid =>
      if tid != "" then
        match price tid with
        | some p => { r with latest_pm_p := some (clamp01 p) }
        | none => r
      else r
    | none => r
  else r

/-- The snapshot loop of the `update_prices` job.  `sel` abstracts the
`ORDER BY`/`LIMIT`/time budget; the per-id `UPDATE` under the primary
key acts row-wise. -/
def update_prices_snapshot (price : String → Option ℚ) (sel : String → Bool)
    (tbl : List Row) : List Row :=
  tbl.map (snapRow price sel)

/-- The body of the forecast loop of `update_prices` for one row: a
selected row with `latest_pm_p IS NOT NULL` gets `machine_from_pm` of it
written to `latest_machine_p`. -/
def foreRow (sel : String → Bool) (r : Row) : Row :=
  if sel r.id then
    match r.latest_pm_p with
    | some p => { r with latest_machine_p := some (machine_from_pm p) }
    | none => r
  else r

/-- The forecast loop of the `update_prices` job. -/
def update_prices_forecast (sel : String → Bool) (tbl : List Row) : List Row :=
  tbl.map (foreRow sel)

/-- The whole `update_prices` job: snapshot pass, then forecast pass. -/
def update_prices (price : String → Option ℚ) (sel1 sel2 : String → Bool)
    (tbl : List Row) : List Row :=
  update_prices_forecast sel2 (update_prices_snapshot price sel1 tbl)

/-! ### The job trigger (`api.admin_run_job`) -/

/-- The job-name check of `admin_run_job`:
`job_name not in {"discover_markets", "hydrate_tokens", "update_prices"}`
raises 400 before any stage logic. -/
def jobAccepted (job_name : String) : Bool :=
  job_name == "discover_markets" || job_name == "hydrate_tokens" ||
    job_name == "update_prices"

/-- The external collaborators a job run reads from. -/
structure JobEnv where
  markets : List Market
  tok : Market → Option String
  ids : Nat → String
  detail : String → Option MarketDoc
  hydSel : String → Bool
  price : String → Option ℚ
  snapSel : String → Bool
  foreSel : String → Bool

/-- `api.admin_run_job` after the admin check: reject unknown names with
HTTP 400 (`Except.error`) before touching the store or the upstream,
else run the named stage on the events table. -/
def admin_run_job (env : JobEnv) (job_name : String) (tbl : List Row) :
    Except String (List Row) :=
  if !(jobAccepted job_name) then .error "Unknown job"
  else if job_name == "discover_markets" then
    .ok (discover_markets env.tok env.ids env.markets tbl 0).1
  else if job_name == "hydrate_tokens" then
    .ok (hydrate_tokens env.detail env.hydSel tbl)
  else
    .ok (update_prices env.price env.snapSel env.foreSel tbl)

section AdjustLemmas

lemma pPm_ge_iff (c : ℚ) : (94/100 ≤ pPm c) ↔ (94/100 ≤ c) := by
  unfold pPm pyclamp
  rw [le_max_iff, le_min_iff]
  constructor
  · rintro (h | ⟨h1, h2⟩) <;> [norm_num at h; exact h2]
  · intro h
    exact Or.inr ⟨by norm_num, h⟩

lemma pPm_le_iff (c : ℚ) : (pPm c ≤ 6/100) ↔ (c ≤ 6/100) := by
  unfold pPm pyclamp
  rw [max_le_iff, min_le_iff]
  constructor
  · rintro ⟨h1, h2 | h3⟩ <;> [norm_num at h2; exact h3]
  · intro h
    exact ⟨by norm_num, Or.inr h⟩

lemma pPm_dev_iff (c : ℚ) :
    (40/100 < |pPm c - 1/2|) ↔ (40/100 < |c - 1/2|) := by
  unfold pPm pyclamp
  rw [lt_abs, lt_abs]
  have hminle : min (999/1000 : ℚ) c ≤ c := min_le_right _ _
  constructor
  · rintro (h | h)
    · left
      have hmax : (9/10 : ℚ) < max (1/1000) (min (999/1000) c) := by linarith
      rcases lt_max_iff.mp hmax with h' | h'
      · norm_num at h'
      · have : (9/10 : ℚ) < c := lt_of_lt_of_le h' hminle
        linarith
    · right
      have hmax : max (1/1000 : ℚ) (min (999/1000) c) < 1/10 := by linarith
      have h2 : min (999/1000 : ℚ) c < 1/10 :=
        lt_of_le_of_lt (le_max_right _ _) hmax
      rcases min_lt_iff.mp h2 with h' | h'
      · norm_num at h'
      · linarith
  · rintro (h | h)
    · left
      have h1 : (9/10 : ℚ) < c := by linarith
      have hmin : (9/10 : ℚ) < min (999/1000) c := lt_min (by norm_num) h1
      have : (9/10 : ℚ) < max (1/1000) (min (999/1000) c) :=
        lt_of_lt_of_le hmin (le_max_right _ _)
      linarith
    · right
      have h1 : c < (1/10 : ℚ) := by linarith
      have : max (1/1000 : ℚ) (min (999/1000) c) < 1/10 :=
        max_lt (by norm_num) (lt_of_le_of_lt hminle h1)
      linarith

end AdjustLemmas

end EdgeMachine

namespace EdgeMachine

/-- C1: `compute_machine_p` equals the five-step reference definition,
and the `title` argument has no effect on the result. -/
theorem compute_machine_p_matches_reference (c v : ℚ) (t t' : String) :
    compute_machine_p c v t = adjustRef c v ∧
      compute_machine_p c v t = compute_machine_p c v t' := by
  refine ⟨?_, rfl⟩
  unfold compute_machine_p adjustRef regressP crushP blendP
  simp only [ge_iff_le, pPm_ge_iff c, pPm_le_iff c, pPm_dev_iff c]
  have hclamp : pPm c = max (1/1000) (min (999/1000) c) := rfl
  rw [hclamp]
  by_cases h94 : (94/100 : ℚ) ≤ c
  · have h06 : ¬ (c ≤ 6/100) := by intro h; linarith
    simp only [if_pos h94, if_neg h06]
    rfl
  · simp only [if_neg h94]
    by_cases h06 : c ≤ (6/100 : ℚ)
    · simp only [if_pos h06]
      rfl
    · simp only [if_neg h06]
      rfl

section CapLemmas

lemma crushP_le_of_hi {c v : ℚ} (h : 94/100 ≤ c) : crushP c v ≤ 91/100 := by
  unfold crushP
  rw [if_pos ((pPm_ge_iff c).mpr h)]
  exact min_le_right _ _

lemma crushP_ge_of_lo {c v : ℚ} (h : c ≤ 6/100) : 9/100 ≤ crushP c v := by
  unfold crushP
  have h94 : ¬ (pPm c ≥ 94/100) := by
    rw [ge_iff_le, pPm_ge_iff c]
    intro h'
    linarith
  rw [if_neg h94, if_pos ((pPm_le_iff c).mpr h)]
  exact le_max_right _ _

lemma regressP_le_of_hi {c v : ℚ} (h : 94/100 ≤ c) : regressP c v ≤ 91/100 := by
  have hc := crushP_le_of_hi (v := v) h
  unfold regressP
  split_ifs <;> linarith

lemma regressP_ge_of_lo {c v : ℚ} (h : c ≤ 6/100) : 9/100 ≤ regressP c v := by
  have hc := crushP_ge_of_lo (v := v) h
  unfold regressP
  split_ifs <;> linarith

lemma compute_le_of_hi (c v : ℚ) (t : String) (h : 94/100 ≤ c) :
    compute_machine_p c v t ≤ 91/100 := by
  unfold compute_machine_p pyclamp
  exact max_le (by norm_num) (le_trans (min_le_right _ _) (regressP_le_of_hi h))

lemma compute_ge_of_lo (c v : ℚ) (t : String) (h : c ≤ 6/100) :
    9/100 ≤ compute_machine_p c v t := by
  unfold compute_machine_p pyclamp
  exact le_trans (le_min (by norm_num) (regressP_ge_of_lo h)) (le_max_right _ _)

end CapLemmas

/-- C2: the `update_prices` forecast loop writes `machine_from_pm`, which
diverges from the canonical `compute_machine_p` at crowd price 0.8:
the fork returns 0.77 while the canonical function (at its default
volume 0) returns 0.5. -/
theorem machine_from_pm_forks_from_ensemble :
    machine_from_pm (8/10) = 77/100 ∧
      compute_machine_p (8/10) 0 "" = 1/2 ∧
      machine_from_pm (8/10) ≠ compute_machine_p (8/10) 0 "" := by
  have h1 : machine_from_pm (8/10) = 77/100 := by
    unfold machine_from_pm clamp01
    norm_num
  have h2 : compute_machine_p (8/10) 0 "" = 1/2 := by
    unfold compute_machine_p regressP crushP blendP pPm pyclamp vol_anchor_usd
    norm_num
  refine ⟨h1, h2, ?_⟩
  rw [h1, h2]
  norm_num

/-- C3: for every crowd price in [0,1] and every nonnegative volume,
`compute_machine_p` returns a value in [0.01, 0.99]. -/
theorem compute_machine_p_in_range (c v : ℚ) (t : String)
    (hc0 : 0 ≤ c) (hc1 : c ≤ 1) (hv : 0 ≤ v) :
    1/100 ≤ compute_machine_p c v t ∧ compute_machine_p c v t ≤ 99/100 := by
  unfold compute_machine_p pyclamp
  exact ⟨le_max_left _ _, max_le (by norm_num) (min_le_left _ _)⟩

/-- Witness for C3 at crowd price 1/2, volume 0. -/
theorem compute_machine_p_in_range_witness :
    0 ≤ (1/2 : ℚ) ∧ (1/2 : ℚ) ≤ 1 ∧ 0 ≤ (0 : ℚ) ∧
      (1/100 ≤ compute_machine_p (1/2) 0 "" ∧ compute_machine_p (1/2) 0 "" ≤ 99/100) :=
  ⟨by norm_num, by norm_num, le_refl 0,
    compute_machine_p_in_range (1/2) 0 "" (by norm_num) (by norm_num) (le_refl 0)⟩

/-- C4: the overconfidence cap engages regardless of volume: for
nonnegative volume, crowd price ≥ 0.94 forces the result ≤ 0.91 and
crowd price ≤ 0.06 forces the result ≥ 0.09; in particular at crowd
price 0.97 / 0.03 with volume 1,000,000. -/
theorem overconfidence_cap_engages (c v : ℚ) (t : String) (hv : 0 ≤ v) :
    (94/100 ≤ c → compute_machine_p c v t ≤ 91/100) ∧
      (c ≤ 6/100 → 9/100 ≤ compute_machine_p c v t) ∧
      compute_machine_p (97/100) 1000000 "" ≤ 91/100 ∧
      9/100 ≤ compute_machine_p (3/100) 1000000 "" :=
  ⟨compute_le_of_hi c v t, compute_ge_of_lo c v t,
    compute_le_of_hi (97/100) 1000000 "" (by norm_num),
    compute_ge_of_lo (3/100) 1000000 "" (by norm_num)⟩

/-- Witness for C4 at crowd price 0.95, volume 42. -/
theorem overconfidence_cap_engages_witness :
    0 ≤ (42 : ℚ) ∧ 94/100 ≤ (95/100 : ℚ) ∧
      compute_machine_p (95/100) 42 "" ≤ 91/100 :=
  ⟨by norm_num, by norm_num,
    (overconfidence_cap_engages (95/100) 42 "" (by norm_num)).1 (by norm_num)⟩

section TableLemmas

lemma forall₂_map_of_forall {α : Type} {R : α → α → Prop} (f : α → α) (l : List α)
    (h : ∀ x ∈ l, R x (f x)) : List.Forall₂ R l (l.map f) := by
  rw [List.forall₂_map_right_iff]
  exact List.forall₂_same.mpr h

lemma take_len_map {α : Type} (f : α → α) (l : List α) :
    (l.map f).take l.length = l.map f := by
  rw [← List.length_map l f]
  exact List.take_length _

lemma strTruthy_ne_none {o : Option String} (h : strTruthy o = true) : o ≠ none := by
  cases o with
  | none => simp [strTruthy] at h
  | some s => simp

end TableLemmas

/-- C5: a hydrated token is never erased.  Both core writers of
`yes_token_id` — the discovery upsert and the `hydrate_tokens` loop —
map a row whose `yes_token_id` is non-null to a row whose
`yes_token_id` is still non-null, even when the newly resolved token is
absent. -/
theorem yes_token_never_nulled (title : String) (slug gid ytid : Option String)
    (nid ncr : String) (detail : String → Option MarketDoc) (sel : String → Bool)
    (tbl : List Row) :
    List.Forall₂ (fun old new => old.yes_token_id ≠ none → new.yes_token_id ≠ none)
      tbl ((upsert_event_in_conn title slug gid ytid nid ncr tbl).take tbl.length) ∧
    List.Forall₂ (fun old new => old.yes_token_id ≠ none → new.yes_token_id ≠ none)
      tbl (hydrate_tokens detail sel tbl) := by
  constructor
  · unfold upsert_event_in_conn
    split
    · rename_i row heq
      split_ifs with ht
      · unfold updateWhereId
        rw [take_len_map]
        apply forall₂_map_of_forall
        intro r hr hne
        dsimp only
        by_cases hid : (r.id == row.id) = true
        · rw [if_pos hid]
          exact strTruthy_ne_none ht
        · rw [if_neg hid]
          exact hne
      · unfold updateWhereId
        rw [take_len_map]
        apply forall₂_map_of_forall
        intro r hr hne
        dsimp only
        by_cases hid : (r.id == row.id) = true
        · rw [if_pos hid]
          exact hne
        · rw [if_neg hid]
          exact hne
    · rw [List.take_left]
      exact List.forall₂_same.mpr (fun r hr hne => hne)
  · unfold hydrate_tokens
    apply forall₂_map_of_forall
    intro r hr hne
    unfold hydrateRow
    repeat' split
    all_goals first | exact hne | simp

/-- Witness for C5 on a one-row table holding token "Y". -/
theorem yes_token_never_nulled_witness :
    List.Forall₂ (fun old new => old.yes_token_id ≠ none → new.yes_token_id ≠ none)
      [({ id := "e2", title := "t", created_at := "", slug := none,
          gamma_market_id := some "G", yes_token_id := some "Y",
          latest_pm_p := none, latest_machine_p := none } : Row)]
      ((upsert_event_in_conn "t2" none (some "G") none "n1" ""
          [{ id := "e2", title := "t", created_at := "", slug := none,
             gamma_market_id := some "G", yes_token_id := some "Y",
             latest_pm_p := none, latest_machine_p := none }]).take
        ([({ id := "e2", title := "t", created_at := "", slug := none,
             gamma_market_id := some "G", yes_token_id := some "Y",
             latest_pm_p := none, latest_machine_p := none } : Row)].length)) :=
  (yes_token_never_nulled "t2" none (some "G") none "n1" "" (fun _ => none)
    (fun _ => true)
    [{ id := "e2", title := "t", created_at := "", slug := none,
       gamma_market_id := some "G", yes_token_id := some "Y",
       latest_pm_p := none, latest_machine_p := none }]).1

section PriceLemmas

lemma clamp01_range (x : ℚ) : 0 ≤ clamp01 x ∧ clamp01 x ≤ 1 := by
  unfold clamp01
  split_ifs <;> constructor <;> linarith

lemma snapRow_frame (price : String → Option ℚ) (sel : String → Bool) (r : Row) :
    (snapRow price sel r).id = r.id ∧ (snapRow price sel r).title = r.title ∧
    (snapRow price sel r).created_at = r.created_at ∧
    (snapRow price sel r).slug = r.slug ∧
    (snapRow price sel r).gamma_market_id = r.gamma_market_id ∧
    (snapRow price sel r).yes_token_id = r.yes_token_id ∧
    (snapRow price sel r).latest_machine_p = r.latest_machine_p := by
  unfold snapRow
  repeat' split
  all_goals simp

lemma snapRow_pm (price : String → Option ℚ) (sel : String → Bool) (r : Row) :
    (snapRow price sel r).latest_pm_p = r.latest_pm_p ∨
      ∃ tid p, r.yes_token_id = some tid ∧ price tid = some p ∧
        (snapRow price sel r).latest_pm_p = some (clamp01 p) := by
  unfold snapRow
  split_ifs with hs
  · split
    · rename_i tid heq
      split_ifs with htid
      · split
        · rename_i p hp
          exact Or.inr ⟨tid, p, heq, hp, rfl⟩
        · exact Or.inl rfl
      · exact Or.inl rfl
    · exact Or.inl rfl
  · exact Or.inl rfl

lemma foreRow_frame (sel : String → Bool) (r : Row) :
    (foreRow sel r).id = r.id ∧ (foreRow sel r).title = r.title ∧
    (foreRow sel r).created_at = r.created_at ∧
    (foreRow sel r).slug = r.slug ∧
    (foreRow sel r).gamma_market_id = r.gamma_market_id ∧
    (foreRow sel r).yes_token_id = r.yes_token_id ∧
    (foreRow sel r).latest_pm_p = r.latest_pm_p := by
  unfold foreRow
  repeat' split
  all_goals simp

end PriceLemmas

/-- C10 (frame property of `update_prices`): the job leaves `id`,
`title`, `created_at`, `slug`, `gamma_market_id` and `yes_token_id` of
every row unchanged — only `latest_pm_p` (snapshot loop) and
`latest_machine_p` (forecast loop) are ever written — and a row whose
price lookup yields nothing keeps its previous `latest_pm_p`. -/
theorem update_prices_frame (price : String → Option ℚ) (sel1 sel2 : String → Bool)
    (tbl : List Row) :
    List.Forall₂ (fun old new =>
        new.id = old.id ∧ new.title = old.title ∧
        new.created_at = old.created_at ∧ new.slug = old.slug ∧
        new.gamma_market_id = old.gamma_market_id ∧
        new.yes_token_id = old.yes_token_id ∧
        ((∀ tid, old.yes_token_id = some tid → price tid = none) →
          new.latest_pm_p = old.latest_pm_p))
      tbl (update_prices price sel1 sel2 tbl) := by
  unfold update_prices update_prices_forecast update_prices_snapshot
  rw [List.map_map]
  apply forall₂_map_of_forall
  intro r hr
  obtain ⟨f1, f2, f3, f4, f5, f6, f7⟩ := foreRow_frame sel2 (snapRow price sel1 r)
  obtain ⟨s1, s2, s3, s4, s5, s6, s7⟩ := snapRow_frame price sel1 r
  refine ⟨by simp only [Function.comp]; rw [f1, s1],
    by simp only [Function.comp]; rw [f2, s2],
    by simp only [Function.comp]; rw [f3, s3],
    by simp only [Function.comp]; rw [f4, s4],
    by simp only [Function.comp]; rw [f5, s5],
    by simp only [Function.comp]; rw [f6, s6], ?_⟩
  intro hnone
  have hpm := snapRow_pm price sel1 r
  rcases hpm with h | ⟨tid, p, hy, hp, _⟩
  · simp only [Function.comp]
    rw [f7, h]
  · exact absurd hp (by rw [hnone tid hy]; simp)

/-- A sample hydrated row with a stale price, for concrete checks. -/
def rowT1 : Row :=
  { id := "e1", title := "will X happen", created_at := "2024-01-01",
    slug := some "x-happen", gamma_market_id := some "42",
    yes_token_id := some "T1", latest_pm_p := some (3/10),
    latest_machine_p := none }

/-- Witness for C10: the frame property evaluated on a one-row table
whose price lookup fails. -/
theorem update_prices_frame_witness :
    List.Forall₂ (fun old new =>
        new.id = old.id ∧ new.title = old.title ∧
        new.created_at = old.created_at ∧ new.slug = old.slug ∧
        new.gamma_market_id = old.gamma_market_id ∧
        new.yes_token_id = old.yes_token_id ∧
        ((∀ tid, old.yes_token_id = some tid → (none : Option ℚ) = none) →
          new.latest_pm_p = old.latest_pm_p))
      [rowT1] (update_prices (fun _ => none) (fun _ => true) (fun _ => true) [rowT1]) :=
  update_prices_frame (fun _ => none) (fun _ => true) (fun _ => true) [rowT1]

/-- C7 counterexample: an unparseable upstream price is NOT written as
the neutral prior 0.5 — `clob_midpoint` raises on `float(mp)`, retries
exhaust, and the snapshot loop skips the row, leaving its previous
`latest_pm_p = 0.3` in place (0.3 ≠ 0.5). -/
theorem snapshot_unparseable_skips_counterexample :
    update_prices_snapshot
        (fun _ => clob_midpoint (.ok ⟨some (.jstr "not-a-price"), none, none⟩) .fail)
        (fun _ => true) [rowT1] = [rowT1] ∧
      rowT1.latest_pm_p = some (3/10) ∧ some ((3 : ℚ)/10) ≠ some ((1 : ℚ)/2) := by
  refine ⟨rfl, rfl, ?_⟩
  simp only [ne_eq, Option.some.injEq]
  norm_num

/-- C7 (amended): any `latest_pm_p` the snapshot loop writes is `clamp01`
of a parsed float, hence in [0,1]; an out-of-range price 5 clamps to 1;
an unparseable price makes `clob_midpoint` return nothing after both
endpoints (the row is skipped, never written as 0.5) — while `clamp01`
itself maps an unparseable argument to the neutral prior 0.5. -/
theorem snapshot_price_always_in_range (ep1 ep2 : String → FetchResult)
    (sel : String → Bool) (tbl : List Row) :
    List.Forall₂ (fun old new =>
        new.latest_pm_p = old.latest_pm_p ∨
          ∃ q, new.latest_pm_p = some q ∧ 0 ≤ q ∧ q ≤ 1)
      tbl (update_prices_snapshot
            (fun tid => clob_midpoint (ep1 tid) (ep2 tid)) sel tbl) ∧
    clamp01 5 = 1 ∧
    (∀ s s', clob_midpoint (.ok ⟨some (.jstr s), none, none⟩)
        (.ok ⟨some (.jstr s'), none, none⟩) = none) ∧
    (∀ s, clamp01Val (some (.jstr s)) = 1/2) := by
  refine ⟨?_, by unfold clamp01; norm_num, ?_, ?_⟩
  · unfold update_prices_snapshot
    apply forall₂_map_of_forall
    intro r hr
    rcases snapRow_pm (fun tid => clob_midpoint (ep1 tid) (ep2 tid)) sel r
      with h | ⟨tid, p, hy, hp, h⟩
    · exact Or.inl h
    · exact Or.inr ⟨clamp01 p, h, clamp01_range p⟩
  · intro s s'
    by_cases h : (s != "") = true <;> by_cases h' : (s' != "") = true <;>
      simp [clob_midpoint, attemptMidpoint, mpOf, pyOrJ, jTruthy, parseFloat, h, h']
  · intro s
    unfold clamp01Val parseFloat
    rfl

/-- C8 counterexample: the job trigger does NOT accept the five spec
names — `forecast_machine` and `resolve_markets` are rejected. -/
theorem job_trigger_five_names_counterexample :
    jobAccepted "forecast_machine" = false ∧
      jobAccepted "resolve_markets" = false := by
  constructor <;> rfl

/-- A trivial environment (no markets, all oracles empty). -/
def envTrivial : JobEnv :=
  { markets := [], tok := fun _ => none, ids := fun _ => "",
    detail := fun _ => none, hydSel := fun _ => false,
    price := fun _ => none, snapSel := fun _ => false,
    foreSel := fun _ => false }

/-- C8 (amended): the job trigger accepts exactly the three stage names
`discover_markets`, `hydrate_tokens` and `update_prices`; any other name
(including the spec's `forecast_machine` and `resolve_markets`) is
rejected with "Unknown job" before any stage logic touches the store or
the upstream (the rejection is the same for every environment and every
table). -/
theorem job_trigger_exactly_three_names (n : String) (env : JobEnv) (tbl : List Row) :
    (jobAccepted n = true ↔
      (n = "discover_markets" ∨ n = "hydrate_tokens" ∨ n = "update_prices")) ∧
    (jobAccepted n = false → admin_run_job env n tbl = .error "Unknown job") := by
  constructor
  · unfold jobAccepted
    simp [Bool.or_eq_true, beq_iff_eq, or_assoc]
  · intro h
    unfold admin_run_job
    rw [h]
    rfl

/-- Witness for C8 at the rejected name `forecast_machine`. -/
theorem job_trigger_exactly_three_names_witness :
    jobAccepted "forecast_machine" = false ∧
      admin_run_job envTrivial "forecast_machine" [] = .error "Unknown job" :=
  ⟨rfl, (job_trigger_exactly_three_names "forecast_machine" envTrivial []).2 rfl⟩

/-- A market document carrying only a two-element `clobTokenIds` list and
no labels at all. -/
def docOnlyClobIds : MarketDoc :=
  { yesTokenId := none, yes_token_id := none, yes_token := none,
    yesToken := none, tokens := none, outcomes := none,
    clobTokenIds := some ["A", "B"], clob_token_ids := none }

/-- C9 counterexample: on a document whose only token information is a
parallel id list of length exactly 2, the resolver returns nothing — it
does not assume positional order `[yes, no]` and does not return the
first id "A". -/
theorem positional_fallback_counterexample :
    extract_yes_token_id docOnlyClobIds = none ∧
      docOnlyClobIds.clobTokenIds = some ["A", "B"] ∧
      (none : Option String) ≠ some "A" := by
  refine ⟨rfl, rfl, ?_⟩
  simp

/-- Whether the effective `tokens`/`outcomes` payload carries any usable
YES/TRUE label — the only thing that can make the resolver return an id
once the direct yes-token fields are absent. -/
def hasYesLabel (o : Option TokList) : Bool :=
  match o with
  | some (.dicts l) => l.any labelIsYes
  | some (.strs l) =>
    l.any (fun s => pyStripLower s == "yes" || pyStripLower s == "true")
  | none => false

/-- C9 (amended): when every direct yes-token field is falsy and the
document's `tokens`/`outcomes` payload carries no usable YES/TRUE label
(the lists may be absent, empty, or hold only other labels), the
resolver returns `none` whatever `clobTokenIds` holds — the source
deliberately never assumes `clobTokenIds[0]` is the YES leg. -/
theorem no_positional_fallback (m : MarketDoc)
    (h1 : strTruthy m.yesTokenId = false) (h2 : strTruthy m.yes_token_id = false)
    (h3 : strTruthy m.yes_token = false) (h4 : strTruthy m.yesToken = false)
    (h5 : hasYesLabel (pyOrTok m.tokens m.outcomes) = false) :
    extract_yes_token_id m = none := by
  unfold extract_yes_token_id
  have hd : firstTruthyStr [m.yesTokenId, m.yes_token_id, m.yes_token, m.yesToken]
      = none := by
    simp [firstTruthyStr, h1, h2, h3, h4]
  rw [hd]
  dsimp only
  cases htoks : pyOrTok m.tokens m.outcomes with
  | none => rfl
  | some tl =>
    rw [htoks] at h5
    cases tl with
    | dicts l =>
      cases l with
      | nil => rfl
      | cons t0 rest =>
        simp only [hasYesLabel] at h5
        have hall : ∀ t ∈ t0 :: rest, labelIsYes t = false := by
          intro t ht
          cases hv : labelIsYes t with
          | false => rfl
          | true =>
            have hany : (t0 :: rest).any labelIsYes = true :=
              List.any_eq_true.mpr ⟨t, ht, hv⟩
            rw [hany] at h5
            exact Bool.noConfusion h5
        have hfm1 : ((t0 :: rest).filterMap
            (fun t => if labelIsYes t then idOf t else none)) = [] := by
          rw [List.filterMap_eq_nil_iff]
          intro t ht
          rw [hall t ht]
          rfl
        dsimp only
        rw [hfm1]
        dsimp only [List.head?]
        cases hcids : pyOrIds m.clobTokenIds m.clob_token_ids with
        | none => rfl
        | some ids =>
          dsimp only
          by_cases hlen : ids.length = (t0 :: rest).length
          · rw [if_pos hlen]
            have hfm2 : (((t0 :: rest).zip ids).filterMap
                (fun p => if labelIsYes p.1 then some p.2 else none)) = [] := by
              rw [List.filterMap_eq_nil_iff]
              intro p hp
              obtain ⟨a, b⟩ := p
              have ha := (List.of_mem_zip hp).1
              simp [hall a ha]
            rw [hfm2]
          · rw [if_neg hlen]
    | strs l =>
      cases l with
      | nil => rfl
      | cons s0 rest =>
        simp only [hasYesLabel] at h5
        have hall : ∀ s ∈ s0 :: rest,
            (pyStripLower s == "yes" || pyStripLower s == "true") = false := by
          intro s hs
          cases hv : (pyStripLower s == "yes" || pyStripLower s == "true") with
          | false => rfl
          | true =>
            have hany : (s0 :: rest).any
                (fun s => pyStripLower s == "yes" || pyStripLower s == "true")
                  = true :=
              List.any_eq_true.mpr ⟨s, hs, hv⟩
            rw [hany] at h5
            exact Bool.noConfusion h5
        dsimp only
        cases hcids : pyOrIds m.clobTokenIds m.clob_token_ids with
        | none => rfl
        | some ids =>
          dsimp only
          by_cases hlen : ids.length = (s0 :: rest).length
          · rw [if_pos hlen]
            have hfm2 : (((s0 :: rest).zip ids).filterMap
                (fun p => if (pyStripLower p.1 == "yes" || pyStripLower p.1 == "true")
                          then some p.2 else none)) = [] := by
              rw [List.filterMap_eq_nil_iff]
              intro p hp
              obtain ⟨a, b⟩ := p
              have ha := (List.of_mem_zip hp).1
              simp [hall a ha]
            rw [hfm2]
            rfl
          · rw [if_neg hlen]

/-- A market document whose two outcome entries carry only non-YES
labels (Foo/Bar) next to a two-element parallel id list. -/
def docNonYesLabels : MarketDoc :=
  { yesTokenId := none, yes_token_id := none, yes_token := none,
    yesToken := none,
    tokens := some (.dicts
      [{ outcome := some "Foo", label := none, name := none, token_id := none,
         tokenId := none, tokenID := none, id := none, clobTokenId := none },
       { outcome := some "Bar", label := none, name := none, token_id := none,
         tokenId := none, tokenID := none, id := none, clobTokenId := none }]),
    outcomes := none, clobTokenIds := some ["A", "B"], clob_token_ids := none }

/-- Witness for C9: the resolver returns nothing on a document whose two
outcome entries are labelled Foo/Bar and whose parallel id list has
length exactly 2. -/
theorem no_positional_fallback_witness :
    extract_yes_token_id docNonYesLabels = none :=
  no_positional_fallback docNonYesLabels rfl rfl rfl rfl rfl

/-! ### Discovery idempotence (C6) -/

/-- The natural key a market contributes to the slug lookup: its slug
when truthy, else nothing. -/
def sKey (m : Market) : Option String :=
  match m.slug with
  | some s => if s = "" then none else some s
  | none => none

/-- Two catalog markets with non-colliding natural keys: distinct source
market ids, and no shared truthy slug. -/
def keysSeparate (a b : Market) : Prop :=
  a.gid ≠ b.gid ∧ (sKey a = none ∨ sKey a ≠ sKey b)

instance : ∀ a b, Decidable (keysSeparate a b) := fun a b => by
  unfold keysSeparate
  infer_instance

/-- The row inserted for a freshly discovered market. -/
def rowOf (tok : Market → Option String) (i : String) (m : Market) : Row :=
  { id := i, title := m.title, created_at := "", slug := m.slug,
    gamma_market_id := some m.gid, yes_token_id := tok m,
    latest_pm_p := none, latest_machine_p := none }

/-- The rows a discovery run over fresh markets appends, in order. -/
def rowsOf (tok : Market → Option String) (ids : Nat → String) :
    List Market → Nat → List Row
  | [], _ => []
  | m :: ms, c =>
    if m.gid == "" then rowsOf tok ids ms c
    else rowOf tok (ids c) m :: rowsOf tok ids ms (c + 1)

section DiscoverLemmas

lemma keysSeparate_slug_fst {a b : Market} (h : keysSeparate a b) {s : String}
    (hs : s ≠ "") (hbs : b.slug = some s) : a.slug ≠ some s := by
  intro ha
  have hka : sKey a = some s := by unfold sKey; rw [ha]; simp [hs]
  have hkb : sKey b = some s := by unfold sKey; rw [hbs]; simp [hs]
  rcases h.2 with h0 | h0
  · rw [hka] at h0
    exact Option.noConfusion h0
  · exact h0 (hka.trans hkb.symm)

lemma keysSeparate_slug_snd {a b : Market} (h : keysSeparate a b) {s : String}
    (hs : s ≠ "") (has : a.slug = some s) : b.slug ≠ some s := by
  intro hb
  have hka : sKey a = some s := by unfold sKey; rw [has]; simp [hs]
  have hkb : sKey b = some s := by unfold sKey; rw [hb]; simp [hs]
  rcases h.2 with h0 | h0
  · rw [hka] at h0
    exact Option.noConfusion h0
  · exact h0 (hka.trans hkb.symm)

lemma find?_append_none {α : Type} (p : α → Bool) {l₁ : List α} (l₂ : List α)
    (h : l₁.find? p = none) : (l₁ ++ l₂).find? p = l₂.find? p := by
  induction l₁ with
  | nil => rfl
  | cons a l ih =>
    rw [List.cons_append]
    cases hpa : p a with
    | true =>
      rw [List.find?_cons_of_pos _ hpa] at h
      exact Option.noConfusion h
    | false =>
      rw [List.find?_cons_of_neg _ (by simp [hpa])] at h
      rw [List.find?_cons_of_neg _ (by simp [hpa])]
      exact ih h

lemma findBySlug_nil (slug : Option String) : findBySlug slug [] = none := by
  unfold findBySlug
  cases slug with
  | none => rfl
  | some s =>
    dsimp only
    by_cases hs : (s != "") = true
    · rw [if_pos hs]
      rfl
    · rw [if_neg hs]

lemma findByGid_nil (gid : Option String) : findByGid gid [] = none := by
  unfold findByGid
  cases gid with
  | none => rfl
  | some g =>
    dsimp only
    by_cases hg : (g != "") = true
    · rw [if_pos hg]
      rfl
    · rw [if_neg hg]

lemma findRow_nil (slug gid : Option String) : findRow slug gid [] = none := by
  unfold findRow
  rw [findBySlug_nil, findByGid_nil]

lemma findBySlug_append {slug : Option String} {t1 : List Row} (t2 : List Row)
    (h : findBySlug slug t1 = none) :
    findBySlug slug (t1 ++ t2) = findBySlug slug t2 := by
  unfold findBySlug at *
  cases slug with
  | none => rfl
  | some s =>
    dsimp only at h ⊢
    by_cases hs : (s != "") = true
    · simp only [if_pos hs] at h ⊢
      exact find?_append_none _ t2 h
    · simp only [if_neg hs]

lemma findByGid_append {gid : Option String} {t1 : List Row} (t2 : List Row)
    (h : findByGid gid t1 = none) :
    findByGid gid (t1 ++ t2) = findByGid gid t2 := by
  unfold findByGid at *
  cases gid with
  | none => rfl
  | some g =>
    dsimp only at h ⊢
    by_cases hg : (g != "") = true
    · simp only [if_pos hg] at h ⊢
      exact find?_append_none _ t2 h
    · simp only [if_neg hg]

lemma findRow_eq_none {slug gid : Option String} {t : List Row}
    (h : findRow slug gid t = none) :
    findBySlug slug t = none ∧ findByGid gid t = none := by
  unfold findRow at h
  cases hbs : findBySlug slug t with
  | some r =>
    rw [hbs] at h
    exact Option.noConfusion h
  | none =>
    rw [hbs] at h
    exact ⟨rfl, h⟩

lemma findRow_append {slug gid : Option String} {t1 : List Row} (t2 : List Row)
    (h : findRow slug gid t1 = none) :
    findRow slug gid (t1 ++ t2) = findRow slug gid t2 := by
  obtain ⟨h1, h2⟩ := findRow_eq_none h
  unfold findRow
  rw [findBySlug_append t2 h1, findByGid_append t2 h2]

/-- A single row matching neither leg of a market's key lookup. -/
def rowNoMatch (slug gid : Option String) (x : Row) : Prop :=
  (∀ s, slug = some s → s ≠ "" → x.slug ≠ some s) ∧
    (∀ g, gid = some g → g ≠ "" → x.gamma_market_id ≠ some g)

lemma findBySlug_cons {slug : Option String} {x : Row} (t : List Row)
    (h : ∀ s, slug = some s → s ≠ "" → x.slug ≠ some s) :
    findBySlug slug (x :: t) = findBySlug slug t := by
  unfold findBySlug
  cases slug with
  | none => rfl
  | some s =>
    dsimp only
    by_cases hs : (s != "") = true
    · rw [if_pos hs, if_pos hs]
      have hx : x.slug ≠ some s := h s rfl (by simpa using hs)
      rw [List.find?_cons_of_neg _ (by simp [hx])]
    · rw [if_neg hs, if_neg hs]

lemma findByGid_cons {gid : Option String} {x : Row} (t : List Row)
    (h : ∀ g, gid = some g → g ≠ "" → x.gamma_market_id ≠ some g) :
    findByGid gid (x :: t) = findByGid gid t := by
  unfold findByGid
  cases gid with
  | none => rfl
  | some g =>
    dsimp only
    by_cases hg : (g != "") = true
    · rw [if_pos hg, if_pos hg]
      have hx : x.gamma_market_id ≠ some g := h g rfl (by simpa using hg)
      rw [List.find?_cons_of_neg _ (by simp [hx])]
    · rw [if_neg hg, if_neg hg]

lemma findRow_cons {slug gid : Option String} {x : Row} (t : List Row)
    (h : rowNoMatch slug gid x) :
    findRow slug gid (x :: t) = findRow slug gid t := by
  unfold findRow
  rw [findBySlug_cons t h.1, findByGid_cons t h.2]

/-- The freshly inserted row of a key-separate market matches neither leg
of another market's lookup. -/
lemma rowOf_noMatch {a b : Market} (tok : Market → Option String) (i : String)
    (h : keysSeparate a b) (hb : b.gid ≠ "") :
    rowNoMatch b.slug (some b.gid) (rowOf tok i a) := by
  constructor
  · intro s hbs hs
    simp only [rowOf]
    exact keysSeparate_slug_fst h hs hbs
  · intro g hbg hg
    simp only [rowOf]
    intro hcontra
    have : a.gid = g := by injection hcontra
    have hbg' : b.gid = g := by injection hbg
    exact h.1 (this.trans hbg'.symm)

lemma findBySlug_mem {slug : Option String} {t : List Row} {r : Row}
    (h : findBySlug slug t = some r) : r ∈ t := by
  unfold findBySlug at h
  cases slug with
  | none => exact Option.noConfusion h
  | some s =>
    dsimp only at h
    by_cases hs : (s != "") = true
    · simp only [if_pos hs] at h
      exact List.mem_of_find?_eq_some h
    · simp only [if_neg hs] at h
      exact Option.noConfusion h

lemma findByGid_mem {gid : Option String} {t : List Row} {r : Row}
    (h : findByGid gid t = some r) : r ∈ t := by
  unfold findByGid at h
  cases gid with
  | none => exact Option.noConfusion h
  | some g =>
    dsimp only at h
    by_cases hg : (g != "") = true
    · simp only [if_pos hg] at h
      exact List.mem_of_find?_eq_some h
    · simp only [if_neg hg] at h
      exact Option.noConfusion h

lemma findRow_mem {slug gid : Option String} {t : List Row} {r : Row}
    (h : findRow slug gid t = some r) : r ∈ t := by
  unfold findRow at h
  cases hbs : findBySlug slug t with
  | some r' =>
    rw [hbs] at h
    cases h
    exact findBySlug_mem hbs
  | none =>
    rw [hbs] at h
    exact findByGid_mem h

lemma upsert_insert (title : String) (slug gid ytid : Option String)
    (nid ncr : String) (tbl : List Row)
    (h : findRow slug gid tbl = none) :
    upsert_event_in_conn title slug gid ytid nid ncr tbl
      = tbl ++ [⟨nid, title, ncr, slug, gid, ytid, none, none⟩] := by
  unfold upsert_event_in_conn
  rw [h]

lemma map_id_of_mem {α : Type} (l : List α) (f : α → α) (h : ∀ x ∈ l, f x = x) :
    l.map f = l := by
  induction l with
  | nil => rfl
  | cons a t ih =>
    rw [List.map_cons, h a (List.mem_cons_self a t),
      ih (fun x hx => h x (List.mem_cons_of_mem _ hx))]

/-- Upserting a market whose own row is already in the table, with the
same title/slug/id/token, leaves the table unchanged. -/
lemma upsert_fixpoint (m : Market) (tok : Market → Option String)
    (nid ncr : String) (tbl : List Row) (r : Row)
    (hfind : findRow m.slug (some m.gid) tbl = some r)
    (ht : r.title = m.title) (hs : r.slug = m.slug)
    (hg : r.gamma_market_id = some m.gid) (hy : r.yes_token_id = tok m)
    (huniq : ∀ x ∈ tbl, x.id = r.id → x = r) :
    upsert_event_in_conn m.title m.slug (some m.gid) (tok m) nid ncr tbl = tbl := by
  unfold upsert_event_in_conn
  rw [hfind]
  dsimp only
  by_cases htr : strTruthy (tok m) = true
  · rw [if_pos htr]
    unfold updateWhereId
    apply map_id_of_mem
    intro x hx
    by_cases hid : (x.id == r.id) = true
    · rw [if_pos hid]
      have hxr := huniq x hx (by simpa using hid)
      subst hxr
      rw [← ht, ← hs, ← hg, ← hy]
    · rw [if_neg hid]
  · rw [if_neg htr]
    unfold updateWhereId
    apply map_id_of_mem
    intro x hx
    by_cases hid : (x.id == r.id) = true
    · rw [if_pos hid]
      have hxr := huniq x hx (by simpa using hid)
      subst hxr
      rw [← ht, ← hs, ← hg]
    · rw [if_neg hid]

lemma upsert_insert_rowOf (m : Market) (tok : Market → Option String)
    (i : String) (tbl : List Row)
    (h : findRow m.slug (some m.gid) tbl = none) :
    upsert_event_in_conn m.title m.slug (some m.gid) (tok m) i "" tbl
      = tbl ++ [rowOf tok i m] :=
  upsert_insert _ _ _ _ _ _ _ h

/-- A discovery pass over markets none of which matches the starting
table appends exactly one fresh row per market with a truthy id. -/
lemma discover_fresh (tok : Market → Option String) (ids : Nat → String) :
    ∀ (ms : List Market) (tbl : List Row) (c : Nat),
      List.Pairwise keysSeparate ms →
      (∀ m ∈ ms, m.gid ≠ "" → findRow m.slug (some m.gid) tbl = none) →
      (discover_markets tok ids ms tbl c).1 = tbl ++ rowsOf tok ids ms c := by
  intro ms
  induction ms with
  | nil =>
    intro tbl c _ _
    simp [discover_markets, rowsOf]
  | cons m ms ih =>
    intro tbl c hpair hnone
    simp only [discover_markets, rowsOf]
    by_cases hgid : (m.gid == "") = true
    · rw [if_pos hgid, if_pos hgid]
      exact ih tbl c hpair.of_cons
        (fun m' hm' => hnone m' (List.mem_cons_of_mem _ hm'))
    · rw [if_neg hgid, if_neg hgid]
      have hg : m.gid ≠ "" := by simpa using hgid
      have hguard := hnone m (List.mem_cons_self _ _) hg
      rw [upsert_insert_rowOf m tok (ids c) tbl hguard]
      have hnext : ∀ m' ∈ ms, m'.gid ≠ "" →
          findRow m'.slug (some m'.gid) (tbl ++ [rowOf tok (ids c) m]) = none := by
        intro m' hm' hg'
        rw [findRow_append _ (hnone m' (List.mem_cons_of_mem _ hm') hg')]
        rw [findRow_cons _
          (rowOf_noMatch tok (ids c) ((List.pairwise_cons.mp hpair).1 m' hm') hg')]
        exact findRow_nil _ _
      rw [ih (tbl ++ [rowOf tok (ids c) m]) (c + 1) hpair.of_cons hnext]
      simp [List.append_assoc, rowOf]

lemma rowsOf_ids (tok : Market → Option String) (ids : Nat → String) :
    ∀ (ms : List Market) (c : Nat), ∀ r' ∈ rowsOf tok ids ms c,
      ∃ n, c ≤ n ∧ r'.id = ids n := by
  intro ms
  induction ms with
  | nil =>
    intro c r' hr'
    simp [rowsOf] at hr'
  | cons m ms ih =>
    intro c r' hr'
    simp only [rowsOf] at hr'
    by_cases hgid : (m.gid == "") = true
    · rw [if_pos hgid] at hr'
      exact ih c r' hr'
    · rw [if_neg hgid] at hr'
      rcases List.mem_cons.mp hr' with h | h
      · exact ⟨c, le_refl c, by rw [h]; rfl⟩
      · obtain ⟨n, hn, hid⟩ := ih (c + 1) r' h
        exact ⟨n, by omega, hid⟩

/-- After a fresh discovery pass with pairwise-separate keys and
injective fresh ids, every discovered market owns exactly one row in the
resulting table, carrying its own title/slug/id/token. -/
lemma owned_all (tok : Market → Option String) (ids : Nat → String)
    (hinj : Function.Injective ids) :
    ∀ (ms : List Market) (c : Nat), List.Pairwise keysSeparate ms →
      ∀ m ∈ ms, m.gid ≠ "" →
        ∃ r, findRow m.slug (some m.gid) (rowsOf tok ids ms c) = some r ∧
          r.title = m.title ∧ r.slug = m.slug ∧
          r.gamma_market_id = some m.gid ∧ r.yes_token_id = tok m ∧
          (∀ x ∈ rowsOf tok ids ms c, x.id = r.id → x = r) := by
  intro ms
  induction ms with
  | nil =>
    intro c _ m hm
    exact absurd hm (List.not_mem_nil m)
  | cons m0 ms ih =>
    intro c hpair m hm hg
    obtain ⟨hrel, hpair'⟩ := List.pairwise_cons.mp hpair
    by_cases hgid0 : (m0.gid == "") = true
    · have hro : rowsOf tok ids (m0 :: ms) c = rowsOf tok ids ms c := by
        simp only [rowsOf]
        rw [if_pos hgid0]
      rcases List.mem_cons.mp hm with he | hmem
      · subst he
        exact absurd (by simpa using hgid0) hg
      · rw [hro]
        exact ih c hpair' m hmem hg
    · have hro : rowsOf tok ids (m0 :: ms) c
          = rowOf tok (ids c) m0 :: rowsOf tok ids ms (c + 1) := by
        simp only [rowsOf]
        rw [if_neg hgid0]
      rw [hro]
      rcases List.mem_cons.mp hm with he | hmem
      · subst he
        refine ⟨rowOf tok (ids c) m, ?_, rfl, rfl, rfl, rfl, ?_⟩
        · unfold findRow
          cases hsl : m.slug with
          | some s =>
            by_cases hse : s = ""
            · subst hse
              have h1 : findBySlug (some "")
                  (rowOf tok (ids c) m :: rowsOf tok ids ms (c + 1)) = none := by
                unfold findBySlug
                simp
              rw [h1]
              dsimp only
              unfold findByGid
              dsimp only
              rw [if_pos (by simpa using hg)]
              rw [List.find?_cons_of_pos _ (by simp [rowOf])]
            · have h1 : findBySlug (some s)
                  (rowOf tok (ids c) m :: rowsOf tok ids ms (c + 1))
                    = some (rowOf tok (ids c) m) := by
                unfold findBySlug
                dsimp only
                rw [if_pos (by simp [hse])]
                rw [List.find?_cons_of_pos _ (by simp [rowOf, hsl])]
              rw [h1]
          | none =>
            have h1 : findBySlug (none : Option String)
                (rowOf tok (ids c) m :: rowsOf tok ids ms (c + 1)) = none := rfl
            rw [h1]
            dsimp only
            unfold findByGid
            dsimp only
            rw [if_pos (by simpa using hg)]
            rw [List.find?_cons_of_pos _ (by simp [rowOf])]
        · intro x hx hid
          rcases List.mem_cons.mp hx with hxe | hxm
          · exact hxe
          · exfalso
            obtain ⟨n, hn, hidn⟩ := rowsOf_ids tok ids ms (c + 1) x hxm
            have hids : ids n = ids c := by
              rw [← hidn, hid]
              rfl
            have := hinj hids
            omega
      · obtain ⟨r, hfind, ht, hs, hgp, hy, huniq⟩ := ih (c + 1) hpair' m hmem hg
        have hnm : rowNoMatch m.slug (some m.gid) (rowOf tok (ids c) m0) :=
          rowOf_noMatch tok (ids c) (hrel m hmem) hg
        refine ⟨r, ?_, ht, hs, hgp, hy, ?_⟩
        · rw [findRow_cons _ hnm]
          exact hfind
        · intro x hx hid
          rcases List.mem_cons.mp hx with hxe | hxm
          · exfalso
            obtain ⟨n, hn, hidn⟩ := rowsOf_ids tok ids ms (c + 1) r (findRow_mem hfind)
            have hids : ids c = ids n := by
              rw [← hidn, ← hid, hxe]
              rfl
            have := hinj hids
            omega
          · exact huniq x hxm hid

/-- A discovery pass over a table in which every market already owns its
row (same title/slug/id/token, unique id) changes nothing. -/
lemma discover_fixpoint (tok : Market → Option String) (ids : Nat → String) :
    ∀ (ms : List Market) (tbl : List Row) (c : Nat),
      (∀ m ∈ ms, m.gid ≠ "" →
        ∃ r, findRow m.slug (some m.gid) tbl = some r ∧
          r.title = m.title ∧ r.slug = m.slug ∧
          r.gamma_market_id = some m.gid ∧ r.yes_token_id = tok m ∧
          (∀ x ∈ tbl, x.id = r.id → x = r)) →
      (discover_markets tok ids ms tbl c).1 = tbl := by
  intro ms
  induction ms with
  | nil =>
    intro tbl c _
    rfl
  | cons m ms ih =>
    intro tbl c hown
    simp only [discover_markets]
    by_cases hgid : (m.gid == "") = true
    · rw [if_pos hgid]
      exact ih tbl c (fun m' hm' => hown m' (List.mem_cons_of_mem _ hm'))
    · rw [if_neg hgid]
      obtain ⟨r, hfind, ht, hs, hgp, hy, huniq⟩ :=
        hown m (List.mem_cons_self _ _) (by simpa using hgid)
      rw [upsert_fixpoint m tok (ids c) "" tbl r hfind ht hs hgp hy huniq]
      exact ih tbl (c + 1) (fun m' hm' => hown m' (List.mem_cons_of_mem _ hm'))

end DiscoverLemmas

/-- A supply of distinct fresh ids (standing in for `uuid4()`). -/
def idsW : Nat → String := fun n => String.mk (List.replicate n 'a')

lemma idsW_injective : Function.Injective idsW := by
  intro a b h
  have h2 := congrArg (fun s : String => s.data.length) h
  simpa [idsW] using h2

/-- C6 counterexample: with catalog markets sharing natural-key parts
(two share the slug "s", two share the market id "2"), a second
discovery run over the identical catalog inserts a new row: one run
yields 1 event row, running twice yields 2. -/
theorem discovery_not_idempotent_counterexample :
    ((discover_markets (fun _ => none) idsW
        [⟨"A", some "s", "1"⟩, ⟨"B", some "s", "2"⟩, ⟨"C", some "t", "2"⟩]
        [] 0).1).length = 1 ∧
    ((discover_markets (fun _ => none) idsW
        [⟨"A", some "s", "1"⟩, ⟨"B", some "s", "2"⟩, ⟨"C", some "t", "2"⟩]
        ((discover_markets (fun _ => none) idsW
          [⟨"A", some "s", "1"⟩, ⟨"B", some "s", "2"⟩, ⟨"C", some "t", "2"⟩]
          [] 0).1) 100).1).length = 2 ∧
    (2 : Nat) ≠ 1 := by
  refine ⟨rfl, rfl, by norm_num⟩

/-- C6 (amended): discovery **is** idempotent in row count whenever no
two catalog markets collide on a natural-key part — pairwise distinct
source market ids and no shared truthy slug — and fresh ids are
distinct: the second run over the identical candidate list matches every
market to its existing row and updates it in place, inserting nothing. -/
theorem discovery_idempotent_for_separate_keys (tok : Market → Option String)
    (ids : Nat → String) (ms : List Market) (c2 : Nat)
    (hinj : Function.Injective ids)
    (hpair : List.Pairwise keysSeparate ms) :
    ((discover_markets tok ids ms
        ((discover_markets tok ids ms [] 0).1) c2).1).length
      = ((discover_markets tok ids ms [] 0).1).length := by
  have h1 : (discover_markets tok ids ms [] 0).1 = rowsOf tok ids ms 0 := by
    have h := discover_fresh tok ids ms [] 0 hpair
      (fun m hm hg => findRow_nil _ _)
    simpa using h
  rw [h1]
  rw [discover_fixpoint tok ids ms (rowsOf tok ids ms 0) c2
    (fun m hm hg => owned_all tok ids hinj ms 0 hpair m hm hg)]

/-- Witness for C6 on a two-market catalog with separate keys. -/
theorem discovery_idempotent_for_separate_keys_witness :
    ((discover_markets (fun _ => none) idsW
        [⟨"mA", some "a-slug", "11"⟩, ⟨"mB", none, "22"⟩]
        ((discover_markets (fun _ => none) idsW
          [⟨"mA", some "a-slug", "11"⟩, ⟨"mB", none, "22"⟩] [] 0).1) 7).1).length
      = ((discover_markets (fun _ => none) idsW
          [⟨"mA", some "a-slug", "11"⟩, ⟨"mB", none, "22"⟩] [] 0).1).length :=
  discovery_idempotent_for_separate_keys (fun _ => none) idsW
    [⟨"mA", some "a-slug", "11"⟩, ⟨"mB", none, "22"⟩] 7 idsW_injective (by decide)

end EdgeMachine
